import Mathlib

/-!
Shallow embedding of `src/queries.js`: a catalog of query, update, delete and
aggregation operations over a MongoDB collection of book records.  The
collection is modelled as a `List Book`; each operation embeds the exact
query document the source passes to the driver (`find`, `updateOne`,
`deleteOne`, `aggregate`), with MongoDB's documented semantics for those
primitives (filters, projection, sort, skip/limit, `$set`, `$group`/`$avg`,
`$sort`, `$limit`).  Prices are rationals.
-/

/-- A document of the `books` collection (data model of the repository). -/
structure Book where
  title : String
  author : String
  price : ℚ
  published_year : Int
  genre : String
  in_stock : Bool
deriving DecidableEq, Repr

/-- The projection `{ title: 1, author: 1, price: 1, _id: 0 }` applied by
every find query in `queries.js`. -/
structure BookView where
  title : String
  author : String
  price : ℚ
deriving DecidableEq, Repr

/-- Apply the `{title, author, price}` projection to one document. -/
def projBook (b : Book) : BookView :=
  { title := b.title, author := b.author, price := b.price }

/-- Embeds `findBooksByGenre(genre)`: `find({ genre }).project({title,author,price})`. -/
def findBooksByGenre (genre : String) (C : List Book) : List BookView :=
  (C.filter (fun b => decide (b.genre = genre))).map projBook

/-- Embeds `findBooksAfterYear(year)`:
`find({ published_year: { $gt: year } }).project({title,author,price})`. -/
def findBooksAfterYear (year : Int) (C : List Book) : List BookView :=
  (C.filter (fun b => decide (year < b.published_year))).map projBook

/-- Embeds `findBooksByAuthor(author)`: `find({ author }).project({title,author,price})`. -/
def findBooksByAuthor (author : String) (C : List Book) : List BookView :=
  (C.filter (fun b => decide (b.author = author))).map projBook

/-- Embeds `findAvailableBooksAfterYear(year)`:
`find({ in_stock: true, published_year: { $gt: year } })` projected. -/
def findAvailableBooksAfterYear (year : Int) (C : List Book) : List BookView :=
  (C.filter (fun b => b.in_stock && decide (year < b.published_year))).map projBook

/-- The string-to-direction translation of `queries.js`:
`const sortOrder = order === 'asc' ? 1 : -1`. -/
def sortOrderOf (order : String) : Int :=
  if order = "asc" then 1 else -1

/-- Embeds `findBooksSortedByPrice(order)`: `find({}).project(...).sort({ price: sortOrder })`. -/
def findBooksSortedByPrice (order : String) (C : List Book) : List BookView :=
  if sortOrderOf order = 1 then
    (C.map projBook).mergeSort (fun a b => decide (a.price ≤ b.price))
  else
    (C.map projBook).mergeSort (fun a b => decide (b.price ≤ a.price))

/-- Embeds `findBooksPaginated(page)`: `find({}).project(...).skip((page-1)*5).limit(5)`. -/
def findBooksPaginated (page : Nat) (C : List Book) : List BookView :=
  ((C.map projBook).drop ((page - 1) * 5)).take 5

/-- Concatenation of pages `1 .. N` of `findBooksPaginated`, in order. -/
def joinPages (N : Nat) (C : List Book) : List BookView :=
  match N with
  | 0 => []
  | n + 1 => joinPages n C ++ findBooksPaginated (n + 1) C

/-- Embeds `updateBookPrice(title, newPrice)`:
`updateOne({ title }, { $set: { price: newPrice } })`.  MongoDB's `updateOne`
updates the first document matching the filter; `matchedCount` is 1 iff a
document matched, and `modifiedCount` is 1 only if the `$set` actually changed
the stored value.  Returns (new collection, matchedCount, modifiedCount). -/
def updateBookPrice (title : String) (newPrice : ℚ) :
    List Book → List Book × Nat × Nat
  | [] => ([], 0, 0)
  | b :: rest =>
    if b.title = title then
      ({ b with price := newPrice } :: rest, 1, if b.price = newPrice then 0 else 1)
    else
      let r := updateBookPrice title newPrice rest
      (b :: r.1, r.2.1, r.2.2)

/-- Embeds `deleteBookByTitle(title)`: `deleteOne({ title })` removes the first
document matching the filter.  Returns (new collection, deletedCount). -/
def deleteBookByTitle (title : String) : List Book → List Book × Nat
  | [] => ([], 0)
  | b :: rest =>
    if b.title = title then
      (rest, 1)
    else
      let r := deleteBookByTitle title rest
      (b :: r.1, r.2)

/-- Keep the first occurrence of each element, dropping later duplicates
(the key set of a `$group` stage, in first-encounter order). -/
def dedupFirst : List String → List String
  | [] => []
  | x :: xs => x :: dedupFirst (xs.filter (fun y => decide (y ≠ x)))
termination_by l => l.length
decreasing_by
  exact Nat.lt_succ_of_le (List.length_filter_le _ _)

/-- The `$avg: "$price"` accumulator over the genre-`g` group of `C`. -/
def avgPriceOf (g : String) (C : List Book) : ℚ :=
  let ps := (C.filter (fun b => decide (b.genre = g))).map Book.price
  ps.sum / ps.length

/-- Embeds `averagePriceByGenre()`: aggregation pipeline
`[{ $group: { _id: "$genre", avgPrice: { $avg: "$price" } } },
  { $sort: { avgPrice: -1 } }]`. -/
def averagePriceByGenre (C : List Book) : List (String × ℚ) :=
  ((dedupFirst (C.map Book.genre)).map (fun g => (g, avgPriceOf g C))).mergeSort
    (fun p q => decide (q.2 ≤ p.2))

/-- The `$group: { _id: "$author", bookCount: { $sum: 1 } }` stage. -/
def authorCounts (C : List Book) : List (String × Nat) :=
  (dedupFirst (C.map Book.author)).map
    (fun a => (a, (C.filter (fun b => decide (b.author = a))).length))

/-- Embeds `authorWithMostBooks()`: aggregation pipeline
`[{ $group: { _id: "$author", bookCount: { $sum: 1 } } },
  { $sort: { bookCount: -1 } }, { $limit: 1 }]`. -/
def authorWithMostBooks (C : List Book) : List (String × Nat) :=
  ((authorCounts C).mergeSort (fun p q => decide (q.2 ≤ p.2))).take 1

/-- A BSON scalar as stored by the driver: JavaScript being untyped, the
`newPrice` argument of `updateBookPrice` may carry a non-numeric value and is
written into the document verbatim. -/
inductive BsonValue where
  | num (q : ℚ)
  | str (s : String)
  | boolean (b : Bool)
deriving DecidableEq, Repr

/-- A book document whose `price` field holds an arbitrary BSON scalar,
as the store really keeps it. -/
structure BookDoc where
  title : String
  author : String
  price : BsonValue
  published_year : Int
  genre : String
  in_stock : Bool
deriving DecidableEq, Repr

/-- Embeds `updateOne({ title }, { $set: { price: newPrice } })` over raw documents:
the first matching document gets `newPrice` stored verbatim. -/
def updateOneSetPrice (title : String) (newPrice : BsonValue) :
    List BookDoc → List BookDoc × Nat × Nat
  | [] => ([], 0, 0)
  | b :: rest =>
    if b.title = title then
      ({ b with price := newPrice } :: rest, 1, if b.price = newPrice then 0 else 1)
    else
      let r := updateOneSetPrice title newPrice rest
      (b :: r.1, r.2.1, r.2.2)

/-- The observable effect of a call to `updateBookPrice(title, newPrice)` in
`queries.js`: the body is `connect; updateOne(...); close` with no input
validation and no conditional, so exactly one store request is issued for
every argument, valid or not.  Fields: resulting collection, matchedCount,
modifiedCount, and the number of requests the store received. -/
def updateBookPriceCall (title : String) (newPrice : BsonValue) (C : List BookDoc) :
    List BookDoc × Nat × Nat × Nat :=
  let r := updateOneSetPrice title newPrice C
  (r.1, r.2.1, r.2.2, 1)

/-- First record of the example scenario in the specification. -/
def bookA : Book :=
  { title := "A", author := "X", price := 10, published_year := 2000,
    genre := "Fiction", in_stock := true }

/-- Second record of the example scenario in the specification. -/
def bookB : Book :=
  { title := "B", author := "Y", price := 20, published_year := 1990,
    genre := "Fiction", in_stock := false }

/-- The two-record fixture of the specification's example scenario. -/
def fixture : List Book := [bookA, bookB]

/-- C4: every record returned by `findAfterYear(Y)` comes from a collection
record with `published_year > Y` (soundness), and every collection record with
`published_year > Y` appears, projected, in the result (completeness). -/
theorem findBooksAfterYear_sound_complete (Y : Int) (C : List Book) :
    (∀ v ∈ findBooksAfterYear Y C,
      ∃ b ∈ C, Y < b.published_year ∧ projBook b = v) ∧
    (∀ b ∈ C, Y < b.published_year → projBook b ∈ findBooksAfterYear Y C) := by
  constructor
  · intro v hv
    simp only [findBooksAfterYear, List.mem_map, List.mem_filter,
      decide_eq_true_eq] at hv
    obtain ⟨b, ⟨hbC, hy⟩, rfl⟩ := hv
    exact ⟨b, hbC, hy, rfl⟩
  · intro b hb hy
    simp only [findBooksAfterYear, List.mem_map, List.mem_filter,
      decide_eq_true_eq]
    exact ⟨b, ⟨hb, hy⟩, rfl⟩

/-- Witness for C4 on the specification's fixture at `Y = 1995`. -/
theorem findBooksAfterYear_witness :
    projBook bookA ∈ findBooksAfterYear 1995 fixture :=
  (findBooksAfterYear_sound_complete 1995 fixture).2 bookA (by decide) (by decide)

/-- C5: `findAvailableAfterYear(Y)` returns (projected) exactly the
intersection of the records matched by `findAfterYear(Y)` with the in-stock
records, and `findAfterYear(Y)` returns the projection of its matched set. -/
theorem findAvailableBooksAfterYear_inter (Y : Int) (C : List Book) :
    findAvailableBooksAfterYear Y C =
      ((C.filter (fun b => decide (Y < b.published_year))).inter
        (C.filter (fun b => b.in_stock))).map projBook ∧
    findBooksAfterYear Y C =
      (C.filter (fun b => decide (Y < b.published_year))).map projBook := by
  refine ⟨?_, rfl⟩
  unfold findAvailableBooksAfterYear
  congr 1
  unfold List.inter
  rw [List.filter_filter]
  apply List.filter_congr
  intro b hb
  have helem : List.elem b (C.filter (fun b => b.in_stock)) = b.in_stock := by
    by_cases h : b.in_stock
    · simp [List.elem_iff, List.mem_filter, hb, h]
    · simp only [Bool.not_eq_true] at h
      simp [List.elem_iff, List.mem_filter, h]
  rw [helem, Bool.and_comm]

/-- Transitivity of the ascending price comparator used by the sort. -/
theorem priceLe_trans (a b c : BookView) :
    decide (a.price ≤ b.price) = true → decide (b.price ≤ c.price) = true →
    decide (a.price ≤ c.price) = true := by
  simp only [decide_eq_true_eq]
  exact le_trans

/-- Totality of the ascending price comparator used by the sort. -/
theorem priceLe_total (a b : BookView) :
    (decide (a.price ≤ b.price) || decide (b.price ≤ a.price)) = true := by
  simp [le_total]

/-- C1: `findSortedByPrice("asc")` lists prices in non-decreasing order,
`findSortedByPrice("desc")` in non-increasing order, each is a permutation of
the projected collection, and the two results are permutations of each other
(the same multiset). -/
theorem findBooksSortedByPrice_spec (C : List Book) :
    (findBooksSortedByPrice "asc" C).Pairwise (fun a b => a.price ≤ b.price) ∧
    (findBooksSortedByPrice "desc" C).Pairwise (fun a b => b.price ≤ a.price) ∧
    (findBooksSortedByPrice "asc" C).Perm (C.map projBook) ∧
    (findBooksSortedByPrice "desc" C).Perm (C.map projBook) ∧
    (findBooksSortedByPrice "asc" C).Perm (findBooksSortedByPrice "desc" C) := by
  have hasc : findBooksSortedByPrice "asc" C =
      (C.map projBook).mergeSort (fun a b => decide (a.price ≤ b.price)) := rfl
  have hdesc : findBooksSortedByPrice "desc" C =
      (C.map projBook).mergeSort (fun a b => decide (b.price ≤ a.price)) := rfl
  have pasc := List.sorted_mergeSort priceLe_trans priceLe_total (C.map projBook)
  have pdesc := List.sorted_mergeSort
    (fun a b c hab hbc => priceLe_trans c b a hbc hab)
    (fun a b => priceLe_total b a) (C.map projBook)
  refine ⟨?_, ?_, ?_, ?_, ?_⟩
  · rw [hasc]
    exact pasc.imp (fun h => by simpa using h)
  · rw [hdesc]
    exact pdesc.imp (fun h => by simpa using h)
  · rw [hasc]; exact List.mergeSort_perm _ _
  · rw [hdesc]; exact List.mergeSort_perm _ _
  · rw [hasc, hdesc]
    exact (List.mergeSort_perm _ _).trans (List.mergeSort_perm _ _).symm

/-- Pages concatenated in order form an initial segment of the full projected
collection: `joinPages N C` is its first `5 * N` records. -/
theorem joinPages_eq_take (N : Nat) (C : List Book) :
    joinPages N C = (C.map projBook).take (5 * N) := by
  induction N with
  | zero => rfl
  | succ n ih =>
    have h5 : 5 * (n + 1) = 5 * n + 5 := by ring
    rw [joinPages, ih, h5, List.take_add]
    congr 1
    simp [findBooksPaginated, Nat.add_sub_cancel, Nat.mul_comm]

/-- C2: every page holds at most 5 records; pages `1..N` concatenated in
order reproduce the full unpaginated projected result set once `5 * N` covers
its length; and any page whose skip count reaches past the end is empty. -/
theorem findBooksPaginated_spec (C : List Book) (page N : Nat) :
    (findBooksPaginated page C).length ≤ 5 ∧
    ((C.map projBook).length ≤ 5 * N → joinPages N C = C.map projBook) ∧
    (1 ≤ page → (C.map projBook).length ≤ (page - 1) * 5 →
      findBooksPaginated page C = []) := by
  refine ⟨List.length_take_le _ _, ?_, ?_⟩
  · intro hlen
    rw [joinPages_eq_take]
    exact List.take_of_length_le hlen
  · intro _ hskip
    unfold findBooksPaginated
    rw [List.drop_eq_nil_of_le hskip, List.take_nil]

/-- Witness for C2 on the specification's fixture: page 1 has at most five
records, one page suffices to list both records, and page 2 is empty. -/
theorem findBooksPaginated_witness :
    (findBooksPaginated 1 fixture).length ≤ 5 ∧
    joinPages 1 fixture = fixture.map projBook ∧
    findBooksPaginated 2 fixture = [] :=
  ⟨(findBooksPaginated_spec fixture 1 1).1,
   (findBooksPaginated_spec fixture 1 1).2.1 (by decide),
   (findBooksPaginated_spec fixture 2 1).2.2 (by decide) (by decide)⟩

/-- C7: when exactly one record matches the title, `deleteByTitle` removes
exactly that record and reports deleted count 1; when none matches it reports
count 0 and leaves the collection unchanged. -/
theorem deleteBookByTitle_spec (title : String) (C : List Book) :
    (C.countP (fun b => decide (b.title = title)) = 1 →
      ∃ l b r, C = l ++ b :: r ∧ b.title = title ∧ (∀ x ∈ l, x.title ≠ title) ∧
        deleteBookByTitle title C = (l ++ r, 1)) ∧
    (C.countP (fun b => decide (b.title = title)) = 0 →
      deleteBookByTitle title C = (C, 0)) := by
  induction C with
  | nil => exact ⟨fun h => by simp at h, fun _ => rfl⟩
  | cons b rest ih =>
    constructor
    · intro h1
      by_cases hb : b.title = title
      · refine ⟨[], b, rest, rfl, hb, by simp, ?_⟩
        simp [deleteBookByTitle, hb]
      · have h1' : rest.countP (fun b => decide (b.title = title)) = 1 := by
          simpa [List.countP_cons, hb] using h1
        obtain ⟨l, x, r, hC, hx, hl, hdel⟩ := ih.1 h1'
        refine ⟨b :: l, x, r, by rw [hC]; rfl, hx, ?_, ?_⟩
        · intro y hy
          rcases List.mem_cons.mp hy with rfl | hyl
          · exact hb
          · exact hl y hyl
        · simp [deleteBookByTitle, hb, hdel]
    · intro h0
      by_cases hb : b.title = title
      · exfalso
        simp [List.countP_cons, hb] at h0
      · have hr : rest.countP (fun b => decide (b.title = title)) = 0 := by
          simpa [List.countP_cons, hb] using h0
        simp [deleteBookByTitle, hb, ih.2 hr]

/-- Witness for C7 on the fixture: deleting title "A" removes exactly the
first record; deleting the absent title "Z" reports 0 and changes nothing. -/
theorem deleteBookByTitle_witness :
    (∃ l b r, fixture = l ++ b :: r ∧ b.title = "A" ∧
      (∀ x ∈ l, x.title ≠ "A") ∧ deleteBookByTitle "A" fixture = (l ++ r, 1)) ∧
    deleteBookByTitle "Z" fixture = (fixture, 0) :=
  ⟨(deleteBookByTitle_spec "A" fixture).1 (by decide),
   (deleteBookByTitle_spec "Z" fixture).2 (by decide)⟩

/-- C10: `updateBookPrice` either leaves the collection untouched (no match)
or rewrites the price of exactly the first matching record: all records
before it do not match, all records after it are untouched, and every field
of the updated record other than `price` is preserved. -/
theorem updateBookPrice_frame (title : String) (p : ℚ) (C : List Book) :
    (updateBookPrice title p C).1 = C ∨
    ∃ l b r, C = l ++ b :: r ∧ (∀ x ∈ l, x.title ≠ title) ∧ b.title = title ∧
      updateBookPrice title p C =
        (l ++ { b with price := p } :: r, 1, if b.price = p then 0 else 1) ∧
      ({ b with price := p }).title = b.title ∧
      ({ b with price := p }).author = b.author ∧
      ({ b with price := p }).published_year = b.published_year ∧
      ({ b with price := p }).genre = b.genre ∧
      ({ b with price := p }).in_stock = b.in_stock := by
  induction C with
  | nil => left; rfl
  | cons b rest ih =>
    by_cases hb : b.title = title
    · right
      exact ⟨[], b, rest, rfl, by simp, hb,
        by simp [updateBookPrice, hb], rfl, rfl, rfl, rfl, rfl⟩
    · rcases ih with h | ⟨l, x, r, hC, hl, hx, hupd, hfs⟩
      · left
        simp [updateBookPrice, hb, h]
      · right
        refine ⟨b :: l, x, r, by rw [hC]; rfl, ?_, hx, ?_, hfs⟩
        · intro y hy
          rcases List.mem_cons.mp hy with rfl | hyl
          · exact hb
          · exact hl y hyl
        · simp [updateBookPrice, hb, hupd]

/-- Membership in a filtered-and-projected result survives prepending a
record to the collection. -/
theorem mem_map_filter_cons {α β : Type} (f : α → β) (p : α → Bool)
    (x : α) (L : List α) (v : β) (h : v ∈ (L.filter p).map f) :
    v ∈ ((x :: L).filter p).map f := by
  rw [List.filter_cons]
  split
  · exact List.mem_cons_of_mem _ h
  · exact h

/-- C6 (amended): on a uniquely-titled record, `updateBookPrice` reports
matched count 1 and modified count 1 exactly when the new price differs from
the stored one (0 when equal, per MongoDB `modifiedCount` semantics), and
subsequent `findByAuthor`/`findByGenre` reads return the record with the new
price; on an absent title it returns counts 0/0 with the collection
unchanged, which is not an error. -/
theorem updateBookPrice_spec (title : String) (p : ℚ) (C : List Book) :
    (C.countP (fun b => decide (b.title = title)) = 1 →
      ∃ b ∈ C, b.title = title ∧
        (updateBookPrice title p C).2.1 = 1 ∧
        (updateBookPrice title p C).2.2 = (if b.price = p then 0 else 1) ∧
        projBook { b with price := p } ∈
          findBooksByAuthor b.author (updateBookPrice title p C).1 ∧
        projBook { b with price := p } ∈
          findBooksByGenre b.genre (updateBookPrice title p C).1) ∧
    (C.countP (fun b => decide (b.title = title)) = 0 →
      updateBookPrice title p C = (C, 0, 0)) := by
  induction C with
  | nil => exact ⟨fun h => by simp at h, fun _ => rfl⟩
  | cons b rest ih =>
    constructor
    · intro h1
      by_cases hb : b.title = title
      · refine ⟨b, List.mem_cons_self b rest, hb, ?_, ?_, ?_, ?_⟩
        · simp [updateBookPrice, hb]
        · simp [updateBookPrice, hb]
        · have hcoll : (updateBookPrice title p (b :: rest)).1 =
              { b with price := p } :: rest := by simp [updateBookPrice, hb]
          rw [hcoll]
          simp [findBooksByAuthor]
        · have hcoll : (updateBookPrice title p (b :: rest)).1 =
              { b with price := p } :: rest := by simp [updateBookPrice, hb]
          rw [hcoll]
          simp [findBooksByGenre]
      · have h1' : rest.countP (fun b => decide (b.title = title)) = 1 := by
          simpa [List.countP_cons, hb] using h1
        obtain ⟨x, hxmem, hxt, hm, hmd, hma, hmg⟩ := ih.1 h1'
        have hcoll : (updateBookPrice title p (b :: rest)).1 =
            b :: (updateBookPrice title p rest).1 := by
          simp [updateBookPrice, hb]
        refine ⟨x, List.mem_cons_of_mem b hxmem, hxt, ?_, ?_, ?_, ?_⟩
        · simpa [updateBookPrice, hb] using hm
        · simpa [updateBookPrice, hb] using hmd
        · rw [hcoll]
          exact mem_map_filter_cons projBook _ b _ _ hma
        · rw [hcoll]
          exact mem_map_filter_cons projBook _ b _ _ hmg
    · intro h0
      by_cases hb : b.title = title
      · exfalso
        simp [List.countP_cons, hb] at h0
      · have hr : rest.countP (fun b => decide (b.title = title)) = 0 := by
          simpa [List.countP_cons, hb] using h0
        simp [updateBookPrice, hb, ih.2 hr]

/-- Counterexample to C6 as stated: on the fixture, title "A" is unique and
the non-negative new price 10 equals the stored price, yet the reported
modified count is 0, not 1 (MongoDB reports `modifiedCount = 0` when `$set`
does not change the stored value). -/
theorem updateBookPrice_modified_cex :
    fixture.countP (fun b => decide (b.title = "A")) = 1 ∧
    (0 : ℚ) ≤ 10 ∧
    ¬ (updateBookPrice "A" 10 fixture).2.2 = 1 := by
  refine ⟨by decide, by norm_num, ?_⟩
  decide

/-- Witness for the amended C6 on the fixture: updating unique title "A" to
price 99, and the absent title "Z". -/
theorem updateBookPrice_spec_witness :
    (∃ b ∈ fixture, b.title = "A" ∧
      (updateBookPrice "A" 99 fixture).2.1 = 1 ∧
      (updateBookPrice "A" 99 fixture).2.2 = (if b.price = 99 then 0 else 1) ∧
      projBook { b with price := 99 } ∈
        findBooksByAuthor b.author (updateBookPrice "A" 99 fixture).1 ∧
      projBook { b with price := 99 } ∈
        findBooksByGenre b.genre (updateBookPrice "A" 99 fixture).1) ∧
    updateBookPrice "Z" 99 fixture = (fixture, 0, 0) :=
  ⟨(updateBookPrice_spec "A" 99 fixture).1 (by decide),
   (updateBookPrice_spec "Z" 99 fixture).2 (by decide)⟩

/-- A one-document store for exercising `updateBookPrice` with a malformed
(non-numeric) `newPrice` argument. -/
def docA : BookDoc :=
  { title := "A", author := "X", price := BsonValue.num 10,
    published_year := 2000, genre := "Fiction", in_stock := true }

/-- The one-document collection of raw documents. -/
def fixtureDocs : List BookDoc := [docA]

/-- Counterexample to C3: calling `updateBookPrice("A", "not-a-number")` on a
store holding a single record titled "A" does not fail fast — the store
receives the request (request count 1, not 0) and the record's price is
overwritten with the non-numeric value, so the collection changes. -/
theorem updateBookPriceCall_cex :
    ¬ ((updateBookPriceCall "A" (BsonValue.str "not-a-number") fixtureDocs).2.2.2 = 0 ∧
       (updateBookPriceCall "A" (BsonValue.str "not-a-number") fixtureDocs).1 =
         fixtureDocs) := by
  decide

/-- Lemma: `updateOneSetPrice` either leaves the raw collection untouched (no
match) or overwrites the price of exactly the first matching document with
the given value, verbatim. -/
theorem updateOneSetPrice_frame (title : String) (p : BsonValue)
    (C : List BookDoc) :
    (updateOneSetPrice title p C).1 = C ∨
    ∃ l b r, C = l ++ b :: r ∧ (∀ x ∈ l, x.title ≠ title) ∧ b.title = title ∧
      (updateOneSetPrice title p C).1 = l ++ { b with price := p } :: r := by
  induction C with
  | nil => left; rfl
  | cons b rest ih =>
    by_cases hb : b.title = title
    · right
      exact ⟨[], b, rest, rfl, by simp, hb, by simp [updateOneSetPrice, hb]⟩
    · rcases ih with h | ⟨l, x, r, hC, hl, hx, hupd⟩
      · left
        simp [updateOneSetPrice, hb, h]
      · right
        refine ⟨b :: l, x, r, by rw [hC]; rfl, ?_, hx, ?_⟩
        · intro y hy
          rcases List.mem_cons.mp hy with rfl | hyl
          · exact hb
          · exact hl y hyl
        · simp [updateOneSetPrice, hb, hupd]

/-- C3 (amended): `updateBookPrice` performs no input validation: every call,
malformed or not, issues exactly one request to the store, and the `$set`
writes the given value — numeric or not — verbatim into the first matching
record's price. -/
theorem updateBookPriceCall_no_validation (title : String) (p : BsonValue)
    (C : List BookDoc) :
    (updateBookPriceCall title p C).2.2.2 = 1 ∧
    ((updateBookPriceCall title p C).1 = C ∨
      ∃ l b r, C = l ++ b :: r ∧ (∀ x ∈ l, x.title ≠ title) ∧ b.title = title ∧
        (updateBookPriceCall title p C).1 = l ++ { b with price := p } :: r) := by
  exact ⟨rfl, updateOneSetPrice_frame title p C⟩

/-- Deduplication preserves membership. -/
theorem dedupFirst_mem (g : String) (l : List String) :
    g ∈ dedupFirst l ↔ g ∈ l := by
  induction l using dedupFirst.induct with
  | case1 => simp [dedupFirst]
  | case2 x xs ih =>
    rw [dedupFirst]
    simp only [List.mem_cons, ih, List.mem_filter, decide_eq_true_eq]
    constructor
    · rintro (rfl | ⟨hmem, _⟩)
      · exact Or.inl rfl
      · exact Or.inr hmem
    · rintro (rfl | hmem)
      · exact Or.inl rfl
      · by_cases hx : g = x
        · exact Or.inl hx
        · exact Or.inr ⟨hmem, hx⟩

/-- Deduplication yields a duplicate-free list. -/
theorem dedupFirst_nodup (l : List String) : (dedupFirst l).Nodup := by
  induction l using dedupFirst.induct with
  | case1 => simp [dedupFirst]
  | case2 x xs ih =>
    rw [dedupFirst]
    refine List.nodup_cons.mpr ⟨?_, ih⟩
    intro hx
    rw [dedupFirst_mem] at hx
    simp [List.mem_filter] at hx

/-- Transitivity of the sort-descending-by-second-component comparator used
by the two aggregation pipelines. -/
theorem descBySnd_trans {α β : Type} [LinearOrder β] (a b c : α × β) :
    decide (b.2 ≤ a.2) = true → decide (c.2 ≤ b.2) = true →
    decide (c.2 ≤ a.2) = true := by
  simp only [decide_eq_true_eq]
  intro h1 h2
  exact le_trans h2 h1

/-- Totality of the sort-descending-by-second-component comparator. -/
theorem descBySnd_total {α β : Type} [LinearOrder β] (a b : α × β) :
    (decide (b.2 ≤ a.2) || decide (a.2 ≤ b.2)) = true := by
  simp [le_total]

/-- C8: `averagePriceByGenre()` returns one pair per genre present in the
collection (no genre missing, none duplicated), each pair carrying the exact
arithmetic mean of the prices of that genre's records, ordered by average
price descending; on the specification's fixture it returns
`[("Fiction", 15)]`. -/
theorem averagePriceByGenre_spec (C : List Book) :
    (∀ g, g ∈ (averagePriceByGenre C).map Prod.fst ↔ g ∈ C.map Book.genre) ∧
    ((averagePriceByGenre C).map Prod.fst).Nodup ∧
    (∀ pr ∈ averagePriceByGenre C,
      pr.2 = ((C.filter (fun b => decide (b.genre = pr.1))).map Book.price).sum /
        ((C.filter (fun b => decide (b.genre = pr.1))).map Book.price).length) ∧
    (averagePriceByGenre C).Pairwise (fun pr qr => qr.2 ≤ pr.2) ∧
    averagePriceByGenre fixture = [("Fiction", 15)] := by
  have hperm : (averagePriceByGenre C).Perm
      ((dedupFirst (C.map Book.genre)).map (fun g => (g, avgPriceOf g C))) :=
    List.mergeSort_perm _ _
  have hfst : ((averagePriceByGenre C).map Prod.fst).Perm
      (dedupFirst (C.map Book.genre)) := by
    have h := hperm.map Prod.fst
    simpa [List.map_map, Function.comp_def] using h
  refine ⟨?_, ?_, ?_, ?_, ?_⟩
  · intro g
    rw [hfst.mem_iff, dedupFirst_mem]
  · exact hfst.nodup_iff.mpr (dedupFirst_nodup _)
  · intro pr hpr
    have hmem : pr ∈ (dedupFirst (C.map Book.genre)).map
        (fun g => (g, avgPriceOf g C)) := hperm.mem_iff.mp hpr
    obtain ⟨g, _, rfl⟩ := List.mem_map.mp hmem
    simp [avgPriceOf]
  · have hpw := List.sorted_mergeSort descBySnd_trans descBySnd_total
      ((dedupFirst (C.map Book.genre)).map (fun g => (g, avgPriceOf g C)))
    exact hpw.imp (fun h => by simpa using h)
  · have hd : dedupFirst (fixture.map Book.genre) = ["Fiction"] := by
      simp [fixture, bookA, bookB, dedupFirst]
    have havg : avgPriceOf "Fiction" fixture = 15 := by
      simp [avgPriceOf, fixture, bookA, bookB]
      norm_num
    rw [show averagePriceByGenre fixture =
        ((dedupFirst (fixture.map Book.genre)).map
          (fun g => (g, avgPriceOf g fixture))).mergeSort
          (fun p q => decide (q.2 ≤ p.2)) from rfl, hd]
    simp [List.mergeSort_singleton, havg]

/-- Witness for C8: on the fixture the returned pair `("Fiction", 15)` is the
exact mean of that genre's prices. -/
theorem averagePriceByGenre_witness :
    ((15 : ℚ)) =
      ((fixture.filter (fun b => decide (b.genre = "Fiction"))).map Book.price).sum /
        ((fixture.filter (fun b => decide (b.genre = "Fiction"))).map Book.price).length :=
  (averagePriceByGenre_spec fixture).2.2.1 ("Fiction", 15)
    (by rw [(averagePriceByGenre_spec fixture).2.2.2.2]; exact List.mem_singleton.mpr rfl)

/-- C9: on a nonempty collection, `authorWithMostBooks()` returns a single
(author, count) pair whose count is that author's exact record count, with no
other author strictly higher; on the empty collection it returns the empty
list. -/
theorem authorWithMostBooks_spec (C : List Book) :
    (C = [] → authorWithMostBooks C = []) ∧
    (C ≠ [] → ∃ a k, authorWithMostBooks C = [(a, k)] ∧
      k = (C.filter (fun b => decide (b.author = a))).length ∧
      ∀ a' ∈ C.map Book.author,
        (C.filter (fun b => decide (b.author = a'))).length ≤ k) := by
  constructor
  · rintro rfl
    simp [authorWithMostBooks, authorCounts, dedupFirst]
  · intro hC
    have hperm : ((authorCounts C).mergeSort (fun p q => decide (q.2 ≤ p.2))).Perm
        (authorCounts C) := List.mergeSort_perm _ _
    have hac_ne : authorCounts C ≠ [] := by
      unfold authorCounts
      cases C with
      | nil => exact absurd rfl hC
      | cons b rest => rw [List.map_cons, dedupFirst]; simp
    have hs_ne : (authorCounts C).mergeSort (fun p q => decide (q.2 ≤ p.2)) ≠ [] := by
      intro h
      exact hac_ne ((h ▸ hperm).symm.eq_nil)
    obtain ⟨p, t, hsort⟩ := List.exists_cons_of_ne_nil hs_ne
    have hp_mem : p ∈ authorCounts C := hperm.subset (hsort ▸ List.mem_cons_self p t)
    obtain ⟨a, ha, hpa⟩ := List.mem_map.mp hp_mem
    subst hpa
    refine ⟨a, (C.filter (fun b => decide (b.author = a))).length, ?_, rfl, ?_⟩
    · unfold authorWithMostBooks
      rw [hsort]
      rfl
    · intro a' ha'
      have ha'd : a' ∈ dedupFirst (C.map Book.author) := (dedupFirst_mem _ _).mpr ha'
      have hmem : (a', (C.filter (fun b => decide (b.author = a'))).length) ∈
          authorCounts C :=
        List.mem_map_of_mem _ ha'd
      have hmem' := hperm.mem_iff.mpr hmem
      rw [hsort] at hmem'
      have hpw := List.sorted_mergeSort descBySnd_trans descBySnd_total (authorCounts C)
      rw [hsort] at hpw
      rcases List.mem_cons.mp hmem' with heq | htail
      · have hsnd := congrArg Prod.snd heq
        simpa using le_of_eq hsnd
      · have h := (List.pairwise_cons.mp hpw).1 _ htail
        simpa using h

/-- Witness for C9: the empty collection yields an empty result, and on the
fixture a top author with an exact, maximal count exists. -/
theorem authorWithMostBooks_witness :
    authorWithMostBooks ([] : List Book) = [] ∧
    (∃ a k, authorWithMostBooks fixture = [(a, k)] ∧
      k = (fixture.filter (fun b => decide (b.author = a))).length ∧
      ∀ a' ∈ fixture.map Book.author,
        (fixture.filter (fun b => decide (b.author = a'))).length ≤ k) :=
  ⟨(authorWithMostBooks_spec []).1 rfl,
   (authorWithMostBooks_spec fixture).2 (by decide)⟩
